import Mathlib

/-
Verification development for the gocahe storage engine.

Shallow embedding of the Go sources:
  - the sharded in-memory map, Set / Get / Delete (GoCacheUsecase),
  - the FNV-1a 32-bit shard hash (fnv32 / getShard),
  - the time wheel (TimeWheel, the variant whose slots map keys to a
    wheel-local expiry timestamp) and one iteration of its tick loop,
  - AOF recovery (loadFromDisk) and AOF compaction (cacheRepo.CleanupAOF).

Modelling conventions:
  - a Go string is a byte sequence, so keys are List Nat (each element a
    byte); values are never hashed and stay Lean String;
  - time is modelled in whole Unix seconds (the service layer converts
    TtlSeconds to a Duration of whole seconds, the wheel tick is 1 s);
    every operation takes the current time as an explicit argument;
  - Go functions returning error model the error as Option Unit where
    none stands for the nil error;
  - the AOF queue plus single writer serialize records in enqueue order,
    so the log is modelled as the List Rec of appended records;
  - lock acquisition and goroutine interleaving are not modelled: each
    operation is one atomic step on the state.
-/

namespace GoCache

/-- Keys are Go strings viewed as their byte sequences. -/
abbrev Key := List Nat

/-- CacheItem from the source: Value string, ExpiresAt int64 (Unix
seconds, 0 means never expires). -/
structure CacheItem where
  value : String
  expiresAt : Int
deriving DecidableEq, Repr

/-- numShards constant from the source. -/
def numShards : Nat := 32

/-- fnv32 from the source: FNV-1a 32-bit hash of the key bytes, as
computed by hash/fnv New32a (offset basis 2166136261, prime 16777619,
arithmetic mod 2^32). -/
def fnv32 (key : Key) : Nat :=
  key.foldl (fun h b => ((h ^^^ b) * 16777619) % 2 ^ 32) 2166136261

/-- getShard from the source: the shard index of a key is its fnv32
hash modulo numShards. -/
def getShard (key : Key) : Nat := fnv32 key % numShards

/-- An AOF record as decoded from the gob stream: a SET 4-tuple, a DEL
2-tuple, or any other well-decoded tuple matching neither pattern
(such records are skipped by recovery and dropped by compaction). -/
inductive Rec where
  | set (key : Key) (value : String) (expiresAt : Int)
  | del (key : Key)
  | other
deriving DecidableEq, Repr

/-- Number of wheel slots: NewTimeWheel(60, time.Second, c). -/
def timeWheelSlots : Nat := 60

/-- Wheel tick length in seconds: time.Second. -/
def timeWheelTick : Int := 1

/-- One slot of the time wheel: the Go map[string]int64 from keys to
the wheel-local expiry timestamp, as an association list. -/
abbrev Slot := List (Key × Int)

/-- Go map assignment slot[key] = v: replace the binding if the key is
present, otherwise add it. -/
def assocSet (l : Slot) (k : Key) (v : Int) : Slot :=
  match l with
  | [] => [(k, v)]
  | p :: rest => if p.1 = k then (k, v) :: rest else p :: assocSet rest k v

/-- Go map lookup slot[key]. -/
def assocLookup (l : Slot) (k : Key) : Option Int :=
  match l with
  | [] => none
  | p :: rest => if p.1 = k then some p.2 else assocLookup rest k

/-- TimeWheel from the source (the slots hold the wheel-local expiry
timestamp for each key). -/
structure TimeWheel where
  slots : Nat → Slot
  index : Nat

/-- TimeWheel.Add from the source: slotIndex = (index + ttl / tick) mod
the slot count, and the slot stores time.Now().Add(ttl).Unix() = now + ttl. -/
def TimeWheel.Add (tw : TimeWheel) (key : Key) (ttl : Int) (now : Int) : TimeWheel :=
  { tw with slots := fun i =>
      if i = (tw.index + (ttl / timeWheelTick).toNat) % timeWheelSlots then
        assocSet (tw.slots ((tw.index + (ttl / timeWheelTick).toNat) % timeWheelSlots)) key (now + ttl)
      else tw.slots i }

/-- The state of GoCacheUsecase together with its collaborators: the 32
shard maps (indexed by shard number), the time wheel, and the AOF
contents (records in the order the single writer appends them). -/
structure GoCacheUsecase where
  shards : Nat → Key → Option CacheItem
  wheel : TimeWheel
  aof : List Rec

/-- Write of one key of one shard map (all other shards and keys are
unchanged). -/
def updateShard (sh : Nat → Key → Option CacheItem) (i : Nat) (k : Key)
    (v : Option CacheItem) : Nat → Key → Option CacheItem :=
  fun j k2 => if j = i ∧ k2 = k then v else sh j k2

/-- The freshly constructed state of NewGoCacheUsecase before
loadFromDisk runs: empty shards, empty wheel at index 0, empty AOF. -/
def emptyUsecase : GoCacheUsecase :=
  { shards := fun _ _ => none
    wheel := { slots := fun _ => [], index := 0 }
    aof := [] }

/-- GoCacheUsecase.Set from the source: ExpiresAt = now + ttl when
ttl > 0 and 0 otherwise; overwrite the entry in the key's shard, add the
key to the time wheel, append the SET record; return the nil error. -/
def GoCacheUsecase.Set (u : GoCacheUsecase) (now : Int) (key : Key)
    (value : String) (ttl : Int) : GoCacheUsecase × Option Unit :=
  let expiresAt : Int := if 0 < ttl then now + ttl else 0
  ({ shards := updateShard u.shards (getShard key) key (some ⟨value, expiresAt⟩)
     wheel := u.wheel.Add key ttl now
     aof := u.aof ++ [Rec.set key value expiresAt] }, none)

/-- GoCacheUsecase.Get from the source: missing key is ErrKeyNotFound
(modelled none); otherwise when entry.ExpiresAt < now the entry is
deleted and ErrKeyNotFound returned, else the value is returned.  Note
the source compares ExpiresAt < now with no ExpiresAt > 0 guard. -/
def GoCacheUsecase.Get (u : GoCacheUsecase) (now : Int) (key : Key) :
    Option String × GoCacheUsecase :=
  match u.shards (getShard key) key with
  | none => (none, u)
  | some entry =>
    if entry.expiresAt < now then
      (none, { u with shards := updateShard u.shards (getShard key) key none })
    else
      (some entry.value, u)

/-- GoCacheUsecase.Delete from the source: remove the key from its
shard (a no-op when absent), append the DEL record, return the nil
error. -/
def GoCacheUsecase.Delete (u : GoCacheUsecase) (key : Key) :
    GoCacheUsecase × Option Unit :=
  ({ u with
      shards := updateShard u.shards (getShard key) key none
      aof := u.aof ++ [Rec.del key] }, none)

/-- One iteration of the ticker case of TimeWheel.run from the source:
advance the index, and for each key of the new current slot whose
wheel-local expiry has passed (now > expiresAt), remove it from the
slot and call cache.Delete on it.  The cache back-reference is made
explicit by acting on the whole GoCacheUsecase state. -/
def TimeWheel.runTick (u : GoCacheUsecase) (now : Int) : GoCacheUsecase :=
  let idx := (u.wheel.index + 1) % timeWheelSlots
  let slot := u.wheel.slots idx
  let fired := slot.filter (fun p => decide (p.2 < now))
  let remaining := slot.filter (fun p => !decide (p.2 < now))
  let u2 : GoCacheUsecase :=
    { u with wheel := { slots := fun i => if i = idx then remaining else u.wheel.slots i
                        index := idx } }
  fired.foldl (fun acc p => (GoCacheUsecase.Delete acc p.1).1) u2

/-- One decoded record applied by loadFromDisk from the source: a SET
record inserts (and registers the key with the wheel at TTL 0) only
when expiresAt == 0 or now < expiresAt; a DEL record removes the key;
any other well-decoded record is skipped. -/
def GoCacheUsecase.applyRec (now : Int) (u : GoCacheUsecase) : Rec → GoCacheUsecase
  | .set key value expiresAt =>
    if expiresAt = 0 ∨ now < expiresAt then
      { u with
          shards := updateShard u.shards (getShard key) key (some ⟨value, expiresAt⟩)
          wheel := u.wheel.Add key 0 now }
    else u
  | .del key =>
    { u with shards := updateShard u.shards (getShard key) key none }
  | .other => u

/-- GoCacheUsecase.loadFromDisk from the source, over the decoded
stream: each element is some record (a successful gob Decode) or none
(a decode failure, io.EOF included); the loop stops at the first decode
failure, keeping the state built so far. -/
def GoCacheUsecase.loadFromDisk (now : Int) :
    List (Option Rec) → GoCacheUsecase → GoCacheUsecase
  | [], u => u
  | none :: _, u => u
  | some r :: rest, u => GoCacheUsecase.loadFromDisk now rest (u.applyRec now r)

/-- Does compaction keep this record?  CleanupAOF from the source
copies a SET or DEL record unless its key is in the expired-key set and
silently drops records matching neither pattern. -/
def keepRec (expiredKeys : List Key) : Rec → Bool
  | .set key _ _ => !(expiredKeys.contains key)
  | .del key => !(expiredKeys.contains key)
  | .other => false

/-- cacheRepo.CleanupAOF from the source, on the decoded record
stream: the surviving log is the input filtered by keepRec (the
temporary file then atomically replaces the canonical file). -/
def cacheRepo.CleanupAOF (expiredKeys : List Key) (l : List Rec) : List Rec :=
  l.filter (keepRec expiredKeys)

/-- Is this record a SET or DEL record for the given key? -/
def recFor (k : Key) : Rec → Bool
  | .set key _ _ => key == k
  | .del key => key == k
  | .other => false

/-- The last record for a key in a log. -/
def lastRecFor (k : Key) (l : List Rec) : Option Rec :=
  (l.filter (recFor k)).getLast?

/-- Modelled from the spec: fnv1a_32 over the bytes of the key -- the
reference FNV-1a 32-bit hash (offset basis 2166136261; per byte, XOR
then multiply by the prime 16777619 mod 2^32).  The source delegates to
the standard library hash/fnv New32a, which is not part of this
repository, so the reference function is written from the spec for the
refinement claim about getShard. -/
def fnv1a_32Aux (acc : Nat) : List Nat → Nat
  | [] => acc
  | b :: bs => fnv1a_32Aux (((acc ^^^ b) * 16777619) % 2 ^ 32) bs

/-- Modelled from the spec: the FNV-1a 32-bit hash of a byte sequence,
started at the offset basis. -/
def fnv1a_32 (bytes : List Nat) : Nat := fnv1a_32Aux 2166136261 bytes

/-- A foreground or background step of the store, for reachability
statements: a Set, a Get (its lazy deletion included), a Delete, or one
wheel tick. -/
inductive Op where
  | set (now : Int) (key : Key) (value : String) (ttl : Int)
  | get (now : Int) (key : Key)
  | del (key : Key)
  | tick (now : Int)

/-- Run one step on the state. -/
def runOp (u : GoCacheUsecase) : Op → GoCacheUsecase
  | .set now k v ttl => (GoCacheUsecase.Set u now k v ttl).1
  | .get now k => (GoCacheUsecase.Get u now k).2
  | .del k => (GoCacheUsecase.Delete u k).1
  | .tick now => TimeWheel.runTick u now

/-- Run a sequence of steps on the state. -/
def runOps (u : GoCacheUsecase) (ops : List Op) : GoCacheUsecase :=
  ops.foldl runOp u

/-- Every key lives only in the shard getShard assigns to it. -/
def shardFunOk (sh : Nat → Key → Option CacheItem) : Prop :=
  ∀ j k it, sh j k = some it → j = getShard k

/-- No live entry is already expired at the given time. -/
def liveInv (now : Int) (u : GoCacheUsecase) : Prop :=
  ∀ j k it, u.shards j k = some it → ¬(0 < it.expiresAt ∧ it.expiresAt ≤ now)

/-- The tail-recursive FNV-1a loop agrees with the foldl of the source
embedding for every accumulator. -/
lemma fnv1a_32Aux_eq_foldl (l : List Nat) :
    ∀ acc, fnv1a_32Aux acc l
      = l.foldl (fun h b => ((h ^^^ b) * 16777619) % 2 ^ 32) acc := by
  induction l with
  | nil => intro acc; rfl
  | cons b bs ih => intro acc; simpa [fnv1a_32Aux] using ih _

/-- Reading back the key just written into its shard. -/
lemma updateShard_self (sh : Nat → Key → Option CacheItem) (i : Nat) (k : Key)
    (v : Option CacheItem) : updateShard sh i k v i k = v := by
  simp [updateShard]

/-- An updateShard targeted at the key's own shard keeps shardFunOk. -/
lemma shardFunOk_updateShard (sh : Nat → Key → Option CacheItem) (k : Key)
    (v : Option CacheItem) (h : shardFunOk sh) :
    shardFunOk (updateShard sh (getShard k) k v) := by
  intro j k2 it hsome
  unfold updateShard at hsome
  split at hsome
  · next hcond => rw [hcond.1, hcond.2]
  · exact h _ _ _ hsome

/-- Set keeps shardFunOk. -/
lemma shardFunOk_Set (u : GoCacheUsecase) (now : Int) (k : Key) (v : String)
    (ttl : Int) (h : shardFunOk u.shards) :
    shardFunOk ((GoCacheUsecase.Set u now k v ttl).1).shards :=
  shardFunOk_updateShard _ _ _ h

/-- Delete keeps shardFunOk. -/
lemma shardFunOk_Delete (u : GoCacheUsecase) (k : Key) (h : shardFunOk u.shards) :
    shardFunOk ((GoCacheUsecase.Delete u k).1).shards :=
  shardFunOk_updateShard _ _ _ h

/-- Get (its lazy deletion included) keeps shardFunOk. -/
lemma shardFunOk_Get (u : GoCacheUsecase) (now : Int) (k : Key)
    (h : shardFunOk u.shards) :
    shardFunOk ((GoCacheUsecase.Get u now k).2).shards := by
  unfold GoCacheUsecase.Get
  split
  · exact h
  · split
    · exact shardFunOk_updateShard _ _ _ h
    · exact h

/-- Folding wheel-triggered deletions over a fired slot keeps shardFunOk. -/
lemma shardFunOk_foldl_Delete (l : List (Key × Int)) (u : GoCacheUsecase)
    (h : shardFunOk u.shards) :
    shardFunOk ((l.foldl (fun acc p => (GoCacheUsecase.Delete acc p.1).1) u).shards) := by
  induction l generalizing u with
  | nil => exact h
  | cons p rest ih => exact ih _ (shardFunOk_Delete _ _ h)

/-- One wheel tick keeps shardFunOk. -/
lemma shardFunOk_runTick (u : GoCacheUsecase) (now : Int)
    (h : shardFunOk u.shards) :
    shardFunOk ((TimeWheel.runTick u now).shards) :=
  shardFunOk_foldl_Delete _ _ h

/-- Applying one recovered record keeps shardFunOk. -/
lemma shardFunOk_applyRec (now : Int) (u : GoCacheUsecase) (r : Rec)
    (h : shardFunOk u.shards) :
    shardFunOk ((u.applyRec now r).shards) := by
  cases r with
  | set key value expiresAt =>
    simp only [GoCacheUsecase.applyRec]
    split
    · exact shardFunOk_updateShard _ _ _ h
    · exact h
  | del key =>
    simp only [GoCacheUsecase.applyRec]
    exact shardFunOk_updateShard _ _ _ h
  | other => exact h

/-- Replay keeps shardFunOk. -/
lemma shardFunOk_loadFromDisk (now : Int) (stream : List (Option Rec))
    (u : GoCacheUsecase) (h : shardFunOk u.shards) :
    shardFunOk ((GoCacheUsecase.loadFromDisk now stream u).shards) := by
  induction stream generalizing u with
  | nil => exact h
  | cons t rest ih =>
    cases t with
    | none => exact h
    | some r => exact ih _ (shardFunOk_applyRec now u r h)

/-- Every step keeps shardFunOk. -/
lemma shardFunOk_runOp (u : GoCacheUsecase) (op : Op) (h : shardFunOk u.shards) :
    shardFunOk ((runOp u op).shards) := by
  cases op with
  | set now k v ttl => exact shardFunOk_Set u now k v ttl h
  | get now k => exact shardFunOk_Get u now k h
  | del k => exact shardFunOk_Delete u k h
  | tick now => exact shardFunOk_runTick u now h

/-- Every step sequence keeps shardFunOk. -/
lemma shardFunOk_runOps (u : GoCacheUsecase) (ops : List Op)
    (h : shardFunOk u.shards) : shardFunOk ((runOps u ops).shards) := by
  induction ops generalizing u with
  | nil => exact h
  | cons op rest ih => exact ih _ (shardFunOk_runOp u op h)

/-- The fresh state satisfies shardFunOk. -/
lemma shardFunOk_empty : shardFunOk emptyUsecase.shards :=
  fun _ _ _ hsome => Option.noConfusion hsome

/-- Applying one recovered record keeps liveInv. -/
lemma liveInv_applyRec (now : Int) (u : GoCacheUsecase) (r : Rec)
    (h : liveInv now u) : liveInv now (u.applyRec now r) := by
  cases r with
  | set key value expiresAt =>
    simp only [GoCacheUsecase.applyRec]
    split
    · next hguard =>
      intro j k2 it hsome
      simp only [updateShard] at hsome
      split at hsome
      · cases hsome
        rintro ⟨h1, h2⟩
        dsimp only at h1 h2
        rcases hguard with h0 | hlt
        · omega
        · omega
      · exact h _ _ _ hsome
    · exact h
  | del key =>
    intro j k2 it hsome
    simp only [GoCacheUsecase.applyRec, updateShard] at hsome
    split at hsome
    · exact Option.noConfusion hsome
    · exact h _ _ _ hsome
  | other => exact h

/-- Replay keeps liveInv. -/
lemma liveInv_loadFromDisk (now : Int) (stream : List (Option Rec))
    (u : GoCacheUsecase) (h : liveInv now u) :
    liveInv now (GoCacheUsecase.loadFromDisk now stream u) := by
  induction stream generalizing u with
  | nil => exact h
  | cons t rest ih =>
    cases t with
    | none => exact h
    | some r => exact ih _ (liveInv_applyRec now u r h)

/-- Pointwise: for a key outside the expired set, being a record for
that key already forces compaction to keep the record. -/
lemma recFor_and_keepRec_of_not_mem (E : List Key) (k : Key)
    (h : E.contains k = false) (r : Rec) :
    (recFor k r && keepRec E r) = recFor k r := by
  have hmem : k ∉ E := by simpa using h
  cases r with
  | set key value expiresAt =>
    by_cases hk : key = k
    · subst hk; simp [recFor, keepRec, hmem]
    · simp [recFor, hk]
  | del key =>
    by_cases hk : key = k
    · subst hk; simp [recFor, keepRec, hmem]
    · simp [recFor, hk]
  | other => simp [recFor]

/-- Pointwise: for a key inside the expired set, no record for that key
is kept by compaction. -/
lemma recFor_and_keepRec_of_mem (E : List Key) (k : Key)
    (h : E.contains k = true) (r : Rec) :
    (recFor k r && keepRec E r) = false := by
  have hmem : k ∈ E := by simpa using h
  cases r with
  | set key value expiresAt =>
    by_cases hk : key = k
    · subst hk; simp [recFor, keepRec, hmem]
    · simp [recFor, hk]
  | del key =>
    by_cases hk : key = k
    · subst hk; simp [recFor, keepRec, hmem]
    · simp [recFor, hk]
  | other => simp [recFor]

/-- Looking up the key just written into a wheel slot. -/
lemma assocLookup_assocSet (l : Slot) (k : Key) (v : Int) :
    assocLookup (assocSet l k v) k = some v := by
  induction l with
  | nil => simp [assocSet, assocLookup]
  | cons p rest ih =>
    by_cases hp : p.1 = k
    · simp [assocSet, assocLookup, hp]
    · simp [assocSet, assocLookup, hp, ih]

/-- C1: the code evaluated at the claim's failing input.  Key byte 97
is stored at time 100 with ttl 0, so its entry carries expiresAt 0,
which the spec and the recovery code treat as never expiring; yet Get
at time 101 returns NotFound (modelled none) and evicts the entry,
because Get compares expiresAt < now with no expiresAt > 0 guard.  The
claim says Get must return the value at every later time. -/
theorem C1_get_drops_ttl0_entry :
    ((GoCacheUsecase.Set emptyUsecase 100 [97] "v" 0).1).shards (getShard [97]) [97]
      = some ⟨"v", 0⟩ ∧
    (GoCacheUsecase.Get (GoCacheUsecase.Set emptyUsecase 100 [97] "v" 0).1 101 [97]).1
      = none ∧
    ((GoCacheUsecase.Get (GoCacheUsecase.Set emptyUsecase 100 [97] "v" 0).1 101 [97]).2).shards
      (getShard [97]) [97] = none := by
  refine ⟨rfl, rfl, rfl⟩

/-- C2: the code evaluated at the claim's failing input.  Key byte 107
is set at time 0 with ttl 1 (wheel slot 1, wheel-local expiry 1), then
immediately overwritten with ttl 100 (entry expiresAt 100, a fresh
wheel registration in slot 40; the stale slot 1 registration remains).
At the tick at time 2 the wheel advances to slot 1, finds the stale
registration with now greater than the wheel-local expiry, and calls
cache.Delete, which removes the entry unconditionally: the still-live
entry (expiresAt 100, in the future) is evicted from its shard and a
spurious DEL record is appended.  The claim says the shard entry's
expiresAt is re-checked and the deletion is a no-op. -/
theorem C2_wheel_fires_deletes_live_entry :
    ((GoCacheUsecase.Set (GoCacheUsecase.Set emptyUsecase 0 [107] "x" 1).1
        0 [107] "y" 100).1).shards (getShard [107]) [107] = some ⟨"y", 100⟩ ∧
    ((2 : Int) < 100) ∧
    (TimeWheel.runTick
        (GoCacheUsecase.Set (GoCacheUsecase.Set emptyUsecase 0 [107] "x" 1).1
          0 [107] "y" 100).1 2).shards (getShard [107]) [107] = none ∧
    (TimeWheel.runTick
        (GoCacheUsecase.Set (GoCacheUsecase.Set emptyUsecase 0 [107] "x" 1).1
          0 [107] "y" 100).1 2).aof
      = [Rec.set [107] "x" 1, Rec.set [107] "y" 100, Rec.del [107]] := by
  refine ⟨rfl, by decide, rfl, rfl⟩

/-- C3: compaction with expired-key set E keeps every record of every
key outside E (so the last record of such a key after compaction is the
last record before compaction), and keeps no record of any key in E. -/
theorem C3_compaction_preserves (E : List Key) (l : List Rec) (k : Key) :
    (E.contains k = false →
      (cacheRepo.CleanupAOF E l).filter (recFor k) = l.filter (recFor k) ∧
      lastRecFor k (cacheRepo.CleanupAOF E l) = lastRecFor k l) ∧
    (E.contains k = true →
      (cacheRepo.CleanupAOF E l).filter (recFor k) = []) := by
  constructor
  · intro h
    have hfilter : (cacheRepo.CleanupAOF E l).filter (recFor k) = l.filter (recFor k) := by
      unfold cacheRepo.CleanupAOF
      rw [List.filter_filter]
      exact List.filter_congr (fun r _ => recFor_and_keepRec_of_not_mem E k h r)
    exact ⟨hfilter, by unfold lastRecFor; rw [hfilter]⟩
  · intro h
    unfold cacheRepo.CleanupAOF
    rw [List.filter_filter]
    calc l.filter (fun r => recFor k r && keepRec E r)
        = l.filter (fun _ => false) :=
          List.filter_congr (fun r _ => recFor_and_keepRec_of_mem E k h r)
      _ = [] := List.filter_false l

/-- C3 witness: a concrete log with keys 97 and 98, where 98 is
expired: the records of key 97 survive compaction unchanged (last
record included) and no record of key 98 survives. -/
theorem C3_compaction_preserves_witness :
    (cacheRepo.CleanupAOF [[98]]
        [Rec.set [97] "1" 0, Rec.set [98] "2" 5, Rec.del [97]]).filter (recFor [97])
      = [Rec.set [97] "1" 0, Rec.set [98] "2" 5, Rec.del [97]].filter (recFor [97]) ∧
    lastRecFor [97] (cacheRepo.CleanupAOF [[98]]
        [Rec.set [97] "1" 0, Rec.set [98] "2" 5, Rec.del [97]])
      = lastRecFor [97] [Rec.set [97] "1" 0, Rec.set [98] "2" 5, Rec.del [97]] ∧
    (cacheRepo.CleanupAOF [[98]]
        [Rec.set [97] "1" 0, Rec.set [98] "2" 5, Rec.del [97]]).filter (recFor [98])
      = [] :=
  ⟨((C3_compaction_preserves [[98]]
      [Rec.set [97] "1" 0, Rec.set [98] "2" 5, Rec.del [97]] [97]).1 (by decide)).1,
   ((C3_compaction_preserves [[98]]
      [Rec.set [97] "1" 0, Rec.set [98] "2" 5, Rec.del [97]] [97]).1 (by decide)).2,
   (C3_compaction_preserves [[98]]
      [Rec.set [97] "1" 0, Rec.set [98] "2" 5, Rec.del [97]] [98]).2 (by decide)⟩

/-- C4: recovery applies records in order: a SET record inserts into
the key's shard exactly when its expiry is 0 or still in the future (as
the claim states, exp = 0 or exp greater than now), a DEL record
removes the key from its shard, and replay from any state in which no
live entry is already expired ends in a state in which no live entry
has 0 < expiresAt ≤ now. -/
theorem C4_recovery_semantics (now : Int) (stream : List (Option Rec))
    (u : GoCacheUsecase) (k : Key) (v : String) (e : Int) :
    ((e = 0 ∨ now < e) →
      (u.applyRec now (Rec.set k v e)).shards (getShard k) k = some ⟨v, e⟩) ∧
    (¬(e = 0 ∨ now < e) → u.applyRec now (Rec.set k v e) = u) ∧
    (u.applyRec now (Rec.del k)).shards (getShard k) k = none ∧
    (liveInv now u → liveInv now (GoCacheUsecase.loadFromDisk now stream u)) := by
  refine ⟨?_, ?_, ?_, liveInv_loadFromDisk now stream u⟩
  · intro hguard
    simp only [GoCacheUsecase.applyRec, if_pos hguard]
    exact updateShard_self _ _ _ _
  · intro hguard
    simp only [GoCacheUsecase.applyRec, if_neg hguard]
  · simp only [GoCacheUsecase.applyRec]
    exact updateShard_self _ _ _ _

/-- C4 witness: at time 10, a SET record with expiry 0 is inserted, a
SET record with expiry 7 (already past) is dropped leaving the state
untouched, a DEL record removes its key, and replay of a one-record
stream from the fresh state satisfies the invariant. -/
theorem C4_recovery_semantics_witness :
    (GoCacheUsecase.applyRec 10 emptyUsecase (Rec.set [97] "v" 0)).shards
      (getShard [97]) [97] = some ⟨"v", 0⟩ ∧
    GoCacheUsecase.applyRec 10 emptyUsecase (Rec.set [98] "w" 7) = emptyUsecase ∧
    (GoCacheUsecase.applyRec 10 emptyUsecase (Rec.del [99])).shards
      (getShard [99]) [99] = none ∧
    liveInv 10 (GoCacheUsecase.loadFromDisk 10 [some (Rec.set [97] "v" 0)] emptyUsecase) :=
  ⟨(C4_recovery_semantics 10 [] emptyUsecase [97] "v" 0).1 (Or.inl rfl),
   (C4_recovery_semantics 10 [] emptyUsecase [98] "w" 7).2.1 (by decide),
   (C4_recovery_semantics 10 [] emptyUsecase [99] "w" 7).2.2.1,
   (C4_recovery_semantics 10 [some (Rec.set [97] "v" 0)] emptyUsecase [97] "v" 0).2.2.2
     (fun _ _ _ hsome => Option.noConfusion hsome)⟩

/-- C5 counterexample: a decodable record that matches neither the SET
nor the DEL pattern does not terminate replay.  With the stream
[other, SET key 110 value v expiry 0], the claim says replay stops at
the first record as if at end-of-stream, which from the fresh state
would leave the state of the empty replay; the code instead skips the
record and applies the following SET. -/
theorem C5_unrecognized_record_skipped :
    (GoCacheUsecase.loadFromDisk 100 [some Rec.other, some (Rec.set [110] "v" 0)]
        emptyUsecase).shards (getShard [110]) [110] = some ⟨"v", 0⟩ ∧
    ¬ GoCacheUsecase.loadFromDisk 100 [some Rec.other, some (Rec.set [110] "v" 0)]
        emptyUsecase
      = GoCacheUsecase.loadFromDisk 100 [] emptyUsecase := by
  refine ⟨rfl, fun heq => ?_⟩
  have h2 := congrArg (fun s => s.shards (getShard [110]) [110]) heq
  exact Option.noConfusion (show some (CacheItem.mk "v" 0) = none from h2)

/-- C5 amended: a decode failure (malformed or truncated record)
terminates replay as if at end-of-stream, keeping the state accumulated
from the intact records decoded before it; a record that decodes but
matches neither the SET nor the DEL pattern does not terminate replay:
it is skipped and the following records are still applied. -/
theorem C5_decode_failure_terminates_replay (now : Int) (pre : List Rec)
    (rest rest2 : List (Option Rec)) (u : GoCacheUsecase) :
    GoCacheUsecase.loadFromDisk now (pre.map some ++ none :: rest) u
      = GoCacheUsecase.loadFromDisk now (pre.map some) u ∧
    GoCacheUsecase.loadFromDisk now (some Rec.other :: rest2) u
      = GoCacheUsecase.loadFromDisk now rest2 u := by
  constructor
  · induction pre generalizing u with
    | nil => rfl
    | cons r rs ih => simpa [GoCacheUsecase.loadFromDisk] using ih _
  · rfl

/-- C6: the shard index of every key is the FNV-1a 32-bit hash of its
bytes modulo 32 (a pure function of the key, hence identical across
calls, restarts, the foreground path and recovery), and in every state
reached from a fresh recovery by any sequence of foreground and
background steps, a key with a live entry in shard j lives exactly in
the shard getShard assigns to it, so a key never resides in two
shards. -/
theorem C6_shard_assignment (k : Key) (now : Int) (stream : List (Option Rec))
    (ops : List Op) (j : Nat) (k2 : Key) (it : CacheItem)
    (h : (runOps (GoCacheUsecase.loadFromDisk now stream emptyUsecase) ops).shards j k2
      = some it) :
    getShard k = fnv1a_32 k % 32 ∧ j = getShard k2 := by
  constructor
  · unfold getShard fnv32 fnv1a_32 numShards
    rw [fnv1a_32Aux_eq_foldl]
  · exact shardFunOk_runOps _ ops
      (shardFunOk_loadFromDisk now stream _ shardFunOk_empty) j k2 it h

/-- C6 witness: after recovering from an empty stream and setting key
byte 97, the key is found in its assigned shard and the hash equation
holds for it. -/
theorem C6_shard_assignment_witness :
    getShard [97] = fnv1a_32 [97] % 32 ∧ getShard [97] = getShard [97] :=
  C6_shard_assignment [97] 5 [] [Op.set 5 [97] "v" 0] (getShard [97]) [97]
    ⟨"v", 0⟩ rfl

/-- C7: Set stores the entry with expiresAt = now + ttl when ttl > 0
and expiresAt = 0 when ttl = 0, appends the SET record carrying that
expiresAt to the log, and returns the nil error. -/
theorem C7_set_semantics (u : GoCacheUsecase) (now : Int) (k : Key)
    (v : String) (ttl : Int) :
    (0 < ttl →
      ((GoCacheUsecase.Set u now k v ttl).1).shards (getShard k) k
        = some ⟨v, now + ttl⟩) ∧
    (ttl = 0 →
      ((GoCacheUsecase.Set u now k v ttl).1).shards (getShard k) k = some ⟨v, 0⟩) ∧
    ((GoCacheUsecase.Set u now k v ttl).1).aof
      = u.aof ++ [Rec.set k v (if 0 < ttl then now + ttl else 0)] ∧
    (GoCacheUsecase.Set u now k v ttl).2 = none := by
  refine ⟨?_, ?_, rfl, rfl⟩
  · intro h
    simp only [GoCacheUsecase.Set, if_pos h]
    exact updateShard_self _ _ _ _
  · intro h
    subst h
    simp only [GoCacheUsecase.Set]
    rw [if_neg (lt_irrefl 0)]
    exact updateShard_self _ _ _ _

/-- C7 witness: Set of key byte 97 at time 100 with ttl 5 stores
expiresAt 105 and logs it; with ttl 0 it stores expiresAt 0; both calls
return the nil error. -/
theorem C7_set_semantics_witness :
    ((GoCacheUsecase.Set emptyUsecase 100 [97] "v" 5).1).shards (getShard [97]) [97]
      = some ⟨"v", 105⟩ ∧
    ((GoCacheUsecase.Set emptyUsecase 100 [97] "v" 0).1).shards (getShard [97]) [97]
      = some ⟨"v", 0⟩ ∧
    ((GoCacheUsecase.Set emptyUsecase 100 [97] "v" 5).1).aof
      = [] ++ [Rec.set [97] "v" (if (0 : Int) < 5 then 100 + 5 else 0)] ∧
    (GoCacheUsecase.Set emptyUsecase 100 [97] "v" 5).2 = none :=
  ⟨(C7_set_semantics emptyUsecase 100 [97] "v" 5).1 (by decide),
   (C7_set_semantics emptyUsecase 100 [97] "v" 0).2.1 rfl,
   (C7_set_semantics emptyUsecase 100 [97] "v" 5).2.2.1,
   (C7_set_semantics emptyUsecase 100 [97] "v" 5).2.2.2⟩

/-- C8: compaction is idempotent: compacting a log with an expired-key
set and compacting the result again with the same set yields the log of
the single compaction. -/
theorem C8_compaction_idempotent (E : List Key) (l : List Rec) :
    cacheRepo.CleanupAOF E (cacheRepo.CleanupAOF E l) = cacheRepo.CleanupAOF E l := by
  unfold cacheRepo.CleanupAOF
  rw [List.filter_filter]
  exact List.filter_congr (fun r _ => Bool.and_self _)

/-- C9: Delete of a key absent from its shard still returns the nil
error, leaves every shard map unchanged, and nevertheless appends a DEL
record to the log. -/
theorem C9_delete_absent (u : GoCacheUsecase) (k : Key)
    (h : u.shards (getShard k) k = none) :
    ((GoCacheUsecase.Delete u k).1).shards = u.shards ∧
    ((GoCacheUsecase.Delete u k).1).aof = u.aof ++ [Rec.del k] ∧
    (GoCacheUsecase.Delete u k).2 = none := by
  refine ⟨?_, rfl, rfl⟩
  funext j k2
  simp only [GoCacheUsecase.Delete, updateShard]
  split
  · next hc => rw [hc.1, hc.2, h]
  · rfl

/-- C9 witness: deleting the absent key byte 97 from the fresh state
leaves the shards untouched, appends the DEL record, and returns the
nil error. -/
theorem C9_delete_absent_witness :
    ((GoCacheUsecase.Delete emptyUsecase [97]).1).shards = emptyUsecase.shards ∧
    ((GoCacheUsecase.Delete emptyUsecase [97]).1).aof = [] ++ [Rec.del [97]] ∧
    (GoCacheUsecase.Delete emptyUsecase [97]).2 = none :=
  C9_delete_absent emptyUsecase [97] rfl

/-- C10: every Set, for every nonnegative ttl including 0, registers
the key in the wheel at slot (index + ttl / tick) mod 60 and stores the
wheel-local expiry timestamp now + ttl there, leaving the wheel index
unchanged. -/
theorem C10_wheel_registration (u : GoCacheUsecase) (now : Int) (k : Key)
    (v : String) (ttl : Int) (h : 0 ≤ ttl) :
    assocLookup
      (((GoCacheUsecase.Set u now k v ttl).1).wheel.slots
        ((u.wheel.index + (ttl / timeWheelTick).toNat) % timeWheelSlots)) k
      = some (now + ttl) ∧
    ((GoCacheUsecase.Set u now k v ttl).1).wheel.index = u.wheel.index := by
  constructor
  · simp only [GoCacheUsecase.Set, TimeWheel.Add, if_pos rfl]
    exact assocLookup_assocSet _ _ _
  · rfl

/-- C10 witness: Set of key byte 97 with ttl 0 at time 100 registers
the key in the current slot with wheel-local expiry 100. -/
theorem C10_wheel_registration_witness :
    assocLookup
      (((GoCacheUsecase.Set emptyUsecase 100 [97] "v" 0).1).wheel.slots
        ((emptyUsecase.wheel.index + ((0 : Int) / timeWheelTick).toNat) % timeWheelSlots))
      [97] = some (100 + 0) ∧
    ((GoCacheUsecase.Set emptyUsecase 100 [97] "v" 0).1).wheel.index
      = emptyUsecase.wheel.index :=
  C10_wheel_registration emptyUsecase 100 [97] "v" 0 (by decide)

end GoCache
